import Mathlib

/-! Shallow embedding of the PyFlash flashcard application (src/Lab6.py): the
card data model, the practice-session state dictionary, the UI handlers that
mutate them, and the statistics computations.  Python strings are modelled as
`List Char`, card counters as `Nat`, the JSON catalog as `List Card`.
-/

/-- The six whitespace characters recognised by Python's `str.strip()` and
no-argument `str.split()` for ASCII text. -/
def isPySpace (c : Char) : Bool :=
  c = ' ' || c = '\t' || c = '\n' || c = '\r' || c = '\x0b' || c = '\x0c'

/-- Python `str.lower()` (ASCII fragment). -/
def pyLower (s : List Char) : List Char := s.map Char.toLower

/-- Python `str.strip()`: drop leading and trailing whitespace. -/
def pyStrip (s : List Char) : List Char :=
  (((s.dropWhile isPySpace).reverse.dropWhile isPySpace)).reverse

lemma dropWhile_length_le {α : Type} (p : α → Bool) :
    ∀ l : List α, (l.dropWhile p).length ≤ l.length := by
  intro l
  induction l with
  | nil => simp [List.dropWhile]
  | cons c cs ih =>
    simp only [List.dropWhile]
    split
    · exact Nat.le_succ_of_le ih
    · exact Nat.le_refl _

/-- Python no-argument `str.split()`: maximal runs of non-whitespace
characters, with whitespace runs discarded. -/
def pySplit : List Char → List (List Char)
  | [] => []
  | c :: cs =>
    if isPySpace c then pySplit cs
    else (c :: cs.takeWhile (fun x => !isPySpace x)) ::
      pySplit (cs.dropWhile (fun x => !isPySpace x))
termination_by l => l.length
decreasing_by
  · simp only [List.length_cons]; omega
  · simp only [List.length_cons]
    exact Nat.lt_succ_of_le (dropWhile_length_le _ _)

/-- Python `" ".join(words)`. -/
def pyJoin : List (List Char) → List Char
  | [] => []
  | [w] => w
  | w :: ws => w ++ ' ' :: pyJoin ws

/-- The normalization the source applies to both the submitted text and the
stored answer (Lab6.py lines 185-186):
`" ".join(text.lower().strip().split())`. -/
def codeNormalize (s : List Char) : List Char :=
  pyJoin (pySplit (pyStrip (pyLower s)))

/-- Answer grading (Lab6.py line 190): exact equality of the two normalized
strings. -/
def grade_answer (user stored : List Char) : Bool :=
  codeNormalize user == codeNormalize stored

/-- Modelled from the spec's words: "collapse internal whitespace runs to
single spaces" — each whitespace run becomes one `' '`. -/
def collapseWS : List Char → List Char
  | [] => []
  | [c] => [if isPySpace c then ' ' else c]
  | c :: d :: rest =>
    if isPySpace c && isPySpace d then collapseWS (d :: rest)
    else (if isPySpace c then ' ' else c) :: collapseWS (d :: rest)

/-- Modelled from the spec's words: "lower-case, strip leading/trailing
whitespace, collapse internal whitespace runs to single spaces". -/
def specNormalize (s : List Char) : List Char :=
  collapseWS (pyStrip (pyLower s))

/-- A flashcard record as stored in the JSON catalog.  The `uuid4` identity
token is modelled as a `Nat`. -/
structure Card where
  id : Nat
  question : List Char
  answer : List Char
  is_code : Bool
  topic : String
  correct_count : Nat
  incorrect_count : Nat
deriving DecidableEq, Repr

/-- The `st.session_state.practice_session` dictionary.  The
`cards_in_session` key is absent until the first start; absence is modelled
by the empty list. -/
structure PracticeSession where
  active : Bool
  cards_in_session : List Card
  shuffled_indices : List Nat
  current_index : Nat
  correct_answers : Nat
  incorrect_answers : Nat
  answer_submitted : Bool
  user_answer : List Char
  last_answer_correct : Option Bool
deriving DecidableEq, Repr

/-- The fresh practice-session dictionary built by `initialize_session_state`
(Lab6.py lines 43-53). -/
def freshSession : PracticeSession :=
  { active := false
    cards_in_session := []
    shuffled_indices := []
    current_index := 0
    correct_answers := 0
    incorrect_answers := 0
    answer_submitted := false
    user_answer := []
    last_answer_correct := none }

/-- `initialize_session_state` (Lab6.py lines 37-53): assigns the fresh
dictionary only when the `practice_session` key is absent (`none`); when the
key is present the stored session is left untouched. -/
def initialize_session_state (ps : Option PracticeSession) : PracticeSession :=
  match ps with
  | some s => s
  | none => freshSession

/-- The topic filter applied when the Start button is clicked (Lab6.py
line 232): `topic == "All" or card["topic"] == topic`. -/
def topic_filter (topic : String) (cards : List Card) : List Card :=
  cards.filter (fun card => topic == "All" || card.topic == topic)

/-- Result of clicking the Start button: whether `st.error` was shown, and
the practice-session dictionary afterwards. -/
structure StartResult where
  errored : Bool
  session : PracticeSession
deriving DecidableEq, Repr

/-- The Start-button handler (Lab6.py lines 231-247).  `shuffled` stands for
the result of `random.shuffle(list(range(len(cards_to_practice))))`; the
shuffle itself is external randomness, so the shuffled list is passed in
(constrained to a permutation of the range where a claim needs it).  Note
that `initialize_session_state()` is called on a present key, so it returns
the stored session unchanged. -/
def start_clicked (topic : String) (cards : List Card) (shuffled : List Nat)
    (s : PracticeSession) : StartResult :=
  let cards_to_practice := topic_filter topic cards
  if cards_to_practice.isEmpty then
    { errored := true, session := s }
  else
    let s1 := initialize_session_state (some s)
    { errored := false
      session :=
        { s1 with
            active := true
            cards_in_session := cards_to_practice
            shuffled_indices := shuffled } }

/-- One per-card counter increment (Lab6.py lines 258-261). -/
def bump_card (was_correct : Bool) (c : Card) : Card :=
  if was_correct then { c with correct_count := c.correct_count + 1 }
  else { c with incorrect_count := c.incorrect_count + 1 }

/-- The for/break loop of `handle_next_card` (Lab6.py lines 256-262): bump
the first card in the catalog whose id matches; later duplicates and absent
ids are untouched. -/
def update_card_stats (cid : Nat) (was_correct : Bool) : List Card → List Card
  | [] => []
  | c :: cs =>
    if c.id = cid then bump_card was_correct c :: cs
    else c :: update_card_stats cid was_correct cs

/-- The session-tally update of `handle_next_card` (Lab6.py lines 266-269):
increment the tally matching the judgment. -/
def tally_session (was_correct : Bool) (s : PracticeSession) : PracticeSession :=
  if was_correct then { s with correct_answers := s.correct_answers + 1 }
  else { s with incorrect_answers := s.incorrect_answers + 1 }

/-- The move-or-end step of `handle_next_card` (Lab6.py lines 272-280):
advance and clear the pending judgment while more cards remain, otherwise
set the session inactive. -/
def step_session (s1 : PracticeSession) : PracticeSession :=
  if s1.current_index + 1 < s1.shuffled_indices.length then
    { s1 with
        current_index := s1.current_index + 1
        answer_submitted := false
        user_answer := []
        last_answer_correct := none }
  else
    { s1 with active := false }

/-- `handle_next_card(was_correct)` (Lab6.py lines 249-281): look up the
current card, write its counter through to the catalog, tally, then step.
Python list indexing raises `IndexError` out of bounds, modelled by
`none`. -/
def handle_next_card (was_correct : Bool) (cards : List Card)
    (s : PracticeSession) : Option (List Card × PracticeSession) :=
  match s.shuffled_indices[s.current_index]? with
  | none => none
  | some card_idx =>
    match s.cards_in_session[card_idx]? with
    | none => none
    | some card =>
      some (update_card_stats card.id was_correct cards,
        step_session (tally_session was_correct s))

/-- A run of Next-card clicks with the given judged outcomes, chaining
`handle_next_card` over the catalog and the session. -/
def run_session : List Bool → List Card → PracticeSession →
    Option (List Card × PracticeSession)
  | [], cards, s => some (cards, s)
  | b :: bs, cards, s =>
    match handle_next_card b cards s with
    | none => none
    | some (cards1, s1) => run_session bs cards1 s1

/-- The Save branch of the edit form (Lab6.py lines 132-141): the first card
whose id matches gets the new question, answer and topic; id and both
counters are untouched. -/
def edit_card (cid : Nat) (q a : List Char) (t : String) :
    List Card → List Card
  | [] => []
  | c :: cs =>
    if c.id = cid then { c with question := q, answer := a, topic := t } :: cs
    else c :: edit_card cid q a t cs

/-- The Delete-button handler (Lab6.py lines 146-148):
`[c for c in cards if c["id"] != card["id"]]`. -/
def delete_card (cid : Nat) (cards : List Card) : List Card :=
  cards.filter (fun c => c.id ≠ cid)

/-- The Add-card form handler (Lab6.py lines 76-91).  Python truthiness of
strings makes `if submitted and question and answer` demand both texts
non-empty; otherwise only a warning is shown (`none`: catalog untouched).
The fresh `str(uuid.uuid4())` token is external randomness, passed in as
`newId`. -/
def add_card (newId : Nat) (question answer : List Char) (is_code : Bool)
    (topic : String) (cards : List Card) : Option (List Card) :=
  if question.isEmpty || answer.isEmpty then none
  else some (cards ++
    [{ id := newId
       question := question
       answer := answer
       is_code := is_code
       topic := topic
       correct_count := 0
       incorrect_count := 0 }])

/-- `cards_df["correct_count"].sum()` (Lab6.py line 301). -/
def total_correct (cards : List Card) : Nat :=
  (cards.map (fun c => c.correct_count)).sum

/-- `cards_df["incorrect_count"].sum()` (Lab6.py line 302). -/
def total_incorrect (cards : List Card) : Nat :=
  (cards.map (fun c => c.incorrect_count)).sum

/-- The Overall Performance block (Lab6.py lines 301-312): when
`total_attempts == 0` the no-data branch is taken (`none`) and no division
happens; otherwise `accuracy = (total_correct / total_attempts) * 100`.
Python float division is modelled over `ℚ`. -/
def overall_accuracy (cards : List Card) : Option ℚ :=
  if total_correct cards + total_incorrect cards = 0 then none
  else some (((total_correct cards : ℚ) /
    ((total_correct cards + total_incorrect cards : Nat) : ℚ)) * 100)

/-- Stable insertion (ascending by `incorrect_count`): an element is placed
before the first element with a key not smaller than its own, so among
equal keys earlier elements stay first. -/
def insAsc (c : Card) : List Card → List Card
  | [] => [c]
  | x :: xs =>
    if x.incorrect_count < c.incorrect_count then x :: insAsc c xs
    else c :: x :: xs

/-- Stable ascending sort by `incorrect_count`. -/
def sortAsc : List Card → List Card
  | [] => []
  | c :: cs => insAsc c (sortAsc cs)

/-- `cards_df.sort_values(by="incorrect_count", ascending=False)`
(Lab6.py line 321).  pandas argsorts ascending (numpy's default sort, which
is insertion sort — stable — on slices shorter than 17 entries) and then
reverses the whole indexer for `ascending=False`, so equal keys come out in
reversed original order. -/
def pandas_sort_desc (cards : List Card) : List Card :=
  (sortAsc cards).reverse

/-- The Most Challenging Cards listing (Lab6.py lines 321-322): sort
descending by `incorrect_count`, take `head(5)`, then keep rows with
`incorrect_count > 0`. -/
def hardest_cards (cards : List Card) : List Card :=
  ((pandas_sort_desc cards).take 5).filter (fun c => 0 < c.incorrect_count)

/-- Stable insertion (descending by `incorrect_count`), modelled from the
spec's words: among equal keys earlier elements stay first. -/
def insDesc (c : Card) : List Card → List Card
  | [] => [c]
  | x :: xs =>
    if c.incorrect_count < x.incorrect_count then x :: insDesc c xs
    else c :: x :: xs

/-- Modelled from the spec: stable descending sort by `incorrect_count`,
ties in original order. -/
def stable_sort_desc : List Card → List Card
  | [] => []
  | c :: cs => insDesc c (stable_sort_desc cs)

/-- Modelled from the spec: sort descending with stable tie-break, exclude
zero-incorrect cards, take the top 5. -/
def spec_hardest (cards : List Card) : List Card :=
  ((stable_sort_desc cards).filter (fun c => 0 < c.incorrect_count)).take 5

/-- A concrete card used in closed evaluations. -/
def demoCard (i : Nat) (t : String) (inc : Nat) : Card :=
  { id := i
    question := ['q']
    answer := ['a']
    is_code := false
    topic := t
    correct_count := 0
    incorrect_count := inc }

/-- Catalog for the repeated-start scenario: two cards in topic General. -/
def c1_catalog : List Card := [demoCard 1 ("General") 0, demoCard 2 ("General") 0]

/-- First session over `c1_catalog`, shuffle leaving the order unchanged. -/
def c1_first_session : PracticeSession :=
  (start_clicked ("General") c1_catalog [0, 1] freshSession).session

/-- Catalog and session state after completing the first two-card session. -/
def c1_after_first : List Card × PracticeSession :=
  (run_session [true, true] c1_catalog c1_first_session).getD
    (c1_catalog, freshSession)

/-- The session produced by clicking Start a second time, after the first
session completed. -/
def c1_second_session : PracticeSession :=
  (start_clicked ("General") c1_after_first.1 [0, 1] c1_after_first.2).session

/-- Catalog for the invariant scenario: three OOP cards and one General. -/
def c2_catalog : List Card :=
  [demoCard 1 ("OOP") 0, demoCard 2 ("OOP") 0, demoCard 3 ("OOP") 0,
   demoCard 4 ("General") 0]

/-- First session over the three OOP cards. -/
def c2_first_session : PracticeSession :=
  (start_clicked ("OOP") c2_catalog [0, 1, 2] freshSession).session

/-- Catalog and session state after completing the three-card OOP session. -/
def c2_after_first : List Card × PracticeSession :=
  (run_session [true, true, true] c2_catalog c2_first_session).getD
    (c2_catalog, freshSession)

/-- The session produced by starting a one-card General session right after
the three-card OOP session completed. -/
def c2_second_session : PracticeSession :=
  (start_clicked ("General") c2_after_first.1 [0] c2_after_first.2).session

/-- Default card used with `List.getD` in pointwise statements. -/
def blankCard : Card :=
  { id := 0
    question := []
    answer := []
    is_code := false
    topic := ""
    correct_count := 0
    incorrect_count := 0 }

/-- How one advance may change a single stored card: id unchanged, and
either both counters unchanged, or exactly one of them incremented by 1. -/
def counter_step (old new : Card) : Prop :=
  new.id = old.id ∧
  ((new.correct_count = old.correct_count ∧
      new.incorrect_count = old.incorrect_count) ∨
   (new.correct_count = old.correct_count + 1 ∧
      new.incorrect_count = old.incorrect_count) ∨
   (new.incorrect_count = old.incorrect_count + 1 ∧
      new.correct_count = old.correct_count))

/-- One-card catalog with a recorded incorrect attempt. -/
def c6_catalog : List Card := [demoCard 1 ("General") 1]

/-- An Active two-card session with a pending judgment, used to instantiate
the advance theorem. -/
def c4_session : PracticeSession :=
  { freshSession with
      active := true
      answer_submitted := true
      cards_in_session := c1_catalog
      shuffled_indices := [0, 1] }

/-! Lemmas about Python whitespace handling, leading to the equivalence of
the source normalization with the spec's described normalization. -/

lemma dropWhile_head_false {α : Type} (p : α → Bool) :
    ∀ (l : List α) (c : α) (r : List α), l.dropWhile p = c :: r → p c = false := by
  intro l
  induction l with
  | nil => intro c r h; simp [List.dropWhile] at h
  | cons x xs ih =>
    intro c r h
    rw [List.dropWhile_cons] at h
    by_cases hx : p x
    · exact ih c r (by simpa [hx] using h)
    · rw [if_neg (by simp [hx])] at h
      cases h
      simpa using hx

lemma dropWhile_eq_nil_all {α : Type} (p : α → Bool) :
    ∀ l : List α, l.dropWhile p = [] → ∀ x ∈ l, p x = true := by
  intro l
  induction l with
  | nil => intro _ x hx; cases hx
  | cons y ys ih =>
    intro h x hx
    rw [List.dropWhile_cons] at h
    by_cases hy : p y
    · rcases List.mem_cons.mp hx with rfl | hx'
      · exact hy
      · exact ih (by simpa [hy] using h) x hx'
    · rw [if_neg (by simp [hy])] at h
      cases h

lemma pySplit_skip_space (c : Char) (l : List Char) (h : isPySpace c = true) :
    pySplit (c :: l) = pySplit l := by
  rw [pySplit]
  simp [h]

lemma pySplit_dropWhile : ∀ l : List Char,
    pySplit (l.dropWhile isPySpace) = pySplit l := by
  intro l
  induction l with
  | nil => rfl
  | cons x xs ih =>
    rw [List.dropWhile_cons]
    by_cases hx : isPySpace x
    · rw [if_pos hx, ih, pySplit_skip_space x xs hx]
    · rw [if_neg hx]

lemma pySplit_ne_nil (e : Char) (u : List Char) (h : isPySpace e = false) :
    pySplit (e :: u) ≠ [] := by
  rw [pySplit]
  simp [h]

lemma pyJoin_cons_cons (c : Char) (w : List Char) (ws : List (List Char)) :
    pyJoin ((c :: w) :: ws) = c :: pyJoin (w :: ws) := by
  cases ws <;> simp [pyJoin]

lemma pyJoin_singleton_cons (c : Char) (ws : List (List Char)) (h : ws ≠ []) :
    pyJoin ([c] :: ws) = c :: ' ' :: pyJoin ws := by
  cases ws with
  | nil => cases h rfl
  | cons w ws' => simp [pyJoin]

lemma collapseWS_space_run : ∀ (l : List Char) (s : Char),
    isPySpace s = true → l.dropWhile isPySpace ≠ [] →
    collapseWS (s :: l) = ' ' :: collapseWS (l.dropWhile isPySpace) := by
  intro l
  induction l with
  | nil => intro s _ hne; cases hne rfl
  | cons d rest ih =>
    intro s hs hne
    by_cases hd : isPySpace d
    · rw [show collapseWS (s :: d :: rest) = collapseWS (d :: rest) from by
        simp [collapseWS, hs, hd]]
      rw [List.dropWhile_cons, if_pos hd] at hne ⊢
      exact ih d hd hne
    · rw [List.dropWhile_cons, if_neg hd]
      simp [collapseWS, hs, hd]

lemma collapseWS_cons_nonspace (c : Char) (d : Char) (rest : List Char)
    (hc : isPySpace c = false) :
    collapseWS (c :: d :: rest) = c :: collapseWS (d :: rest) := by
  simp [collapseWS, hc]

lemma pyJoin_pySplit_eq_collapseWS :
    ∀ (n : Nat) (t : List Char), t.length ≤ n →
    (∀ c r, t = c :: r → isPySpace c = false) →
    (∀ c, t.getLast? = some c → isPySpace c = false) →
    pyJoin (pySplit t) = collapseWS t := by
  intro n
  induction n with
  | zero =>
    intro t hlen _ _
    rw [List.length_eq_zero.mp (Nat.le_zero.mp hlen)]
    simp [pySplit, pyJoin, collapseWS]
  | succ n ih =>
    intro t hlen hL hT
    match t with
    | [] => simp [pySplit, pyJoin, collapseWS]
    | c :: cs =>
      have hc : isPySpace c = false := hL c cs rfl
      match cs with
      | [] =>
        rw [pySplit]
        simp [hc, collapseWS, pyJoin, List.takeWhile, List.dropWhile, pySplit]
      | d :: rest =>
        cases hd : isPySpace d with
        | false =>
          -- c and d lie in the same word
          have e1 : pySplit (c :: d :: rest) =
              (c :: d :: rest.takeWhile (fun x => !isPySpace x)) ::
                pySplit (rest.dropWhile (fun x => !isPySpace x)) := by
            rw [pySplit]
            simp only [hc, Bool.false_eq_true, if_false]
            rw [List.takeWhile_cons, List.dropWhile_cons]
            simp [hd]
          have e2 : pySplit (d :: rest) =
              (d :: rest.takeWhile (fun x => !isPySpace x)) ::
                pySplit (rest.dropWhile (fun x => !isPySpace x)) := by
            rw [pySplit]
            simp only [hd, Bool.false_eq_true, if_false]
          rw [e1, pyJoin_cons_cons, ← e2,
            collapseWS_cons_nonspace c d rest hc]
          congr 1
          apply ih
          · simpa using Nat.le_of_succ_le_succ hlen
          · intro c' r' h'
            cases h'
            exact hd
          · intro c' h'
            apply hT
            rw [List.getLast?_cons_cons]
            exact h'
        | true =>
          -- the word ends at c; d starts a whitespace run
          have e1 : pySplit (c :: d :: rest) = [c] :: pySplit (d :: rest) := by
            rw [pySplit]
            simp only [hc, Bool.false_eq_true, if_false]
            rw [List.takeWhile_cons, List.dropWhile_cons]
            simp [hd]
          have hu_ne : (d :: rest).dropWhile isPySpace ≠ [] := by
            intro hnil
            have hall := dropWhile_eq_nil_all isPySpace (d :: rest) hnil
            have hlast :
                (c :: d :: rest).getLast? =
                  some ((d :: rest).getLast (by simp)) := by
              rw [List.getLast?_cons_cons]
              exact List.getLast?_eq_getLast _ (by simp)
            have hfalse := hT _ hlast
            rw [hall _ (List.getLast_mem _)] at hfalse
            cases hfalse
          have hrest_ne : rest.dropWhile isPySpace ≠ [] := by
            rwa [List.dropWhile_cons, if_pos hd] at hu_ne
          rcases hu : rest.dropWhile isPySpace with _ | ⟨e, u'⟩
          · exact absurd hu hrest_ne
          · have he : isPySpace e = false :=
              dropWhile_head_false isPySpace rest e u' hu
            have e2 : pySplit (d :: rest) = pySplit (e :: u') := by
              rw [pySplit_skip_space d rest hd, ← pySplit_dropWhile rest, hu]
            have e3 : collapseWS (c :: d :: rest) =
                c :: ' ' :: collapseWS (e :: u') := by
              rw [collapseWS_cons_nonspace c d rest hc,
                collapseWS_space_run rest d hd hrest_ne, hu]
            have hdecomp : c :: d :: rest =
                (c :: d :: rest.takeWhile isPySpace) ++ (e :: u') := by
              rw [← hu]
              simp [List.takeWhile_append_dropWhile]
            rw [e1, e2, e3,
              pyJoin_singleton_cons c _ (pySplit_ne_nil e u' he)]
            congr 2
            apply ih
            · have h1 : (e :: u').length ≤ rest.length := by
                rw [← hu]
                exact dropWhile_length_le _ _
              have h2 : rest.length + 1 ≤ n := by
                simpa using Nat.le_of_succ_le_succ hlen
              omega
            · intro c' r' h'
              cases h'
              exact he
            · intro c' h'
              apply hT
              rw [hdecomp, List.getLast?_append, h']
              rfl

lemma pyStrip_decomp (l : List Char) :
    l.dropWhile isPySpace =
      pyStrip l ++
        ((l.dropWhile isPySpace).reverse.takeWhile isPySpace).reverse := by
  unfold pyStrip
  calc l.dropWhile isPySpace
      = (l.dropWhile isPySpace).reverse.reverse := (List.reverse_reverse _).symm
    _ = ((l.dropWhile isPySpace).reverse.takeWhile isPySpace ++
          (l.dropWhile isPySpace).reverse.dropWhile isPySpace).reverse := by
          rw [List.takeWhile_append_dropWhile]
    _ = ((l.dropWhile isPySpace).reverse.dropWhile isPySpace).reverse ++
          ((l.dropWhile isPySpace).reverse.takeWhile isPySpace).reverse := by
          rw [List.reverse_append]

lemma pyStrip_head (l : List Char) :
    ∀ c r, pyStrip l = c :: r → isPySpace c = false := by
  intro c r h
  have hd := pyStrip_decomp l
  rw [h] at hd
  exact dropWhile_head_false isPySpace l c _ hd

lemma pyStrip_getLast (l : List Char) :
    ∀ c, (pyStrip l).getLast? = some c → isPySpace c = false := by
  intro c h
  unfold pyStrip at h
  rw [List.getLast?_reverse] at h
  cases hz : (l.dropWhile isPySpace).reverse.dropWhile isPySpace with
  | nil => rw [hz] at h; cases h
  | cons z zs =>
    rw [hz] at h
    cases h
    exact dropWhile_head_false isPySpace _ _ _ hz

lemma codeNormalize_eq_specNormalize (s : List Char) :
    codeNormalize s = specNormalize s := by
  unfold codeNormalize specNormalize
  exact pyJoin_pySplit_eq_collapseWS (pyStrip (pyLower s)).length _
    (Nat.le_refl _) (pyStrip_head _) (pyStrip_getLast _)

lemma grade_answer_eq_spec (user stored : List Char) :
    grade_answer user stored = (specNormalize user == specNormalize stored) := by
  unfold grade_answer
  rw [codeNormalize_eq_specNormalize, codeNormalize_eq_specNormalize]

/-- Claim C3: grading applies the identical normalization — lower-case,
strip leading/trailing whitespace, collapse internal whitespace runs to
single spaces — to both the submitted text and the stored answer, and
returns correct exactly when the two normalized strings are equal; in
particular "  Hello   World " and "hello world" both grade correct against
the stored answer "Hello World". -/
theorem grade_answer_spec_normalization :
    (∀ user stored : List Char,
      grade_answer user stored =
        (specNormalize user == specNormalize stored)) ∧
    grade_answer (("  Hello   World ").toList) (("Hello World").toList) = true ∧
    grade_answer (("hello world").toList) (("Hello World").toList) = true := by
  refine ⟨grade_answer_eq_spec, ?_, ?_⟩ <;>
    rw [grade_answer_eq_spec] <;> decide

/-! Claims about start, add, delete, edit, and the statistics page. -/

/-- Claim C7: starting on a topic matching zero cards shows the error and
leaves the engine Idle — the practice-session state (active flag, card
list, position, tallies) is returned unchanged. -/
theorem start_clicked_empty_topic (topic : String) (cards : List Card)
    (shuffled : List Nat) (s : PracticeSession)
    (h : topic_filter topic cards = []) :
    (start_clicked topic cards shuffled s).errored = true ∧
    (start_clicked topic cards shuffled s).session = s := by
  unfold start_clicked
  simp [h]

/-- Closed instance: starting on OOP over the General-only demo catalog
errors and leaves the fresh session untouched. -/
theorem start_clicked_empty_topic_witness :
    (start_clicked ("OOP") c1_catalog [] freshSession).errored = true ∧
    (start_clicked ("OOP") c1_catalog [] freshSession).session = freshSession :=
  start_clicked_empty_topic ("OOP") c1_catalog [] freshSession (by decide)

/-- Claim C9: adding with an empty question or answer fails validation and
leaves the catalog unchanged; otherwise exactly one new card carrying the
given question, answer, is_code flag and topic is appended, with the fresh
id and zero-initialized counters, and a fresh id keeps catalog ids unique. -/
theorem add_card_validates (newId : Nat) (q a : List Char) (ic : Bool)
    (t : String) (cards : List Card) :
    ((q = [] ∨ a = []) → add_card newId q a ic t cards = none) ∧
    (q ≠ [] → a ≠ [] →
      add_card newId q a ic t cards =
        some (cards ++
          [{ id := newId, question := q, answer := a, is_code := ic,
             topic := t, correct_count := 0, incorrect_count := 0 }])) ∧
    (∀ l, add_card newId q a ic t cards = some l →
      newId ∉ cards.map (fun c => c.id) →
      (cards.map (fun c => c.id)).Nodup →
      (l.map (fun c => c.id)).Nodup) := by
  refine ⟨?_, ?_, ?_⟩
  · rintro (rfl | rfl) <;> simp [add_card]
  · intro hq ha
    unfold add_card
    rw [if_neg]
    simp [hq, ha]
  · intro l hl hnotin hnd
    unfold add_card at hl
    by_cases h : q.isEmpty || a.isEmpty
    · rw [if_pos h] at hl
      cases hl
    · rw [if_neg h] at hl
      cases hl
      rw [List.map_append]
      simp [List.nodup_append, hnd, hnotin]

/-- Closed instance of the add-card theorem at concrete inputs: a valid add
appends the one new card with zero counters and keeps ids unique; an empty
question is rejected. -/
theorem add_card_validates_witness :
    add_card 5 (['w']) (['x']) false ("General") c1_catalog =
      some (c1_catalog ++
        [{ id := 5, question := ['w'], answer := ['x'], is_code := false,
           topic := "General", correct_count := 0, incorrect_count := 0 }]) ∧
    add_card 5 [] (['x']) false ("General") c1_catalog = none ∧
    (((c1_catalog ++
        [({ id := 5, question := ['w'], answer := ['x'], is_code := false,
            topic := "General", correct_count := 0,
            incorrect_count := 0 } : Card)]).map (fun c => c.id)).Nodup) := by
  refine ⟨?_, ?_, ?_⟩
  · exact (add_card_validates 5 (['w']) (['x']) false ("General")
      c1_catalog).2.1 (by decide) (by decide)
  · exact (add_card_validates 5 [] (['x']) false ("General")
      c1_catalog).1 (Or.inl rfl)
  · exact (add_card_validates 5 (['w']) (['x']) false ("General")
      c1_catalog).2.2 _
      ((add_card_validates 5 (['w']) (['x']) false ("General")
        c1_catalog).2.1 (by decide) (by decide)) (by decide) (by decide)

/-- Claim C10: delete removes exactly the cards whose id equals the given
id, preserves the relative order of the remaining cards (sublist), and is an
idempotent no-op when no card has that id — it never raises NotFoundError. -/
theorem delete_card_spec (cid : Nat) (cards : List Card) :
    (∀ c, c ∈ delete_card cid cards ↔ (c ∈ cards ∧ c.id ≠ cid)) ∧
    (delete_card cid cards).Sublist cards ∧
    ((∀ c ∈ cards, c.id ≠ cid) → delete_card cid cards = cards) := by
  refine ⟨?_, ?_, ?_⟩
  · intro c
    simp [delete_card, List.mem_filter]
  · exact List.filter_sublist _
  · intro h
    apply List.filter_eq_self.mpr
    intro c hc
    simpa using h c hc

/-- Closed instance: deleting an absent id leaves the demo catalog
unchanged. -/
theorem delete_card_spec_witness :
    delete_card 99 c1_catalog = c1_catalog :=
  (delete_card_spec 99 c1_catalog).2.2 (by decide)

lemma counter_step_refl (c : Card) : counter_step c c :=
  ⟨rfl, Or.inl ⟨rfl, rfl⟩⟩

/-- Claim C8: the persistent counters never decrease — edit preserves every
card's id and both counters pointwise, and the advance write-through keeps
every card's id while either leaving its counters unchanged or adding
exactly 1 to exactly one of them. -/
theorem counters_never_decrease (cid : Nat) (q a : List Char) (t : String)
    (b : Bool) (cards : List Card) :
    ((edit_card cid q a t cards).map
        (fun c => (c.id, c.correct_count, c.incorrect_count)) =
      cards.map (fun c => (c.id, c.correct_count, c.incorrect_count))) ∧
    ((update_card_stats cid b cards).length = cards.length) ∧
    (∀ i : Nat,
      counter_step (cards.getD i blankCard)
        ((update_card_stats cid b cards).getD i blankCard)) := by
  refine ⟨?_, ?_, ?_⟩
  · induction cards with
    | nil => rfl
    | cons c cs ih =>
      by_cases h : c.id = cid
      · simp [edit_card, h]
      · simp [edit_card, h, ih]
  · induction cards with
    | nil => rfl
    | cons c cs ih =>
      by_cases h : c.id = cid
      · simp [update_card_stats, h]
      · simp [update_card_stats, h, ih]
  · intro i
    induction cards generalizing i with
    | nil => exact counter_step_refl _
    | cons c cs ih =>
      by_cases h : c.id = cid
      · rw [show update_card_stats cid b (c :: cs) =
            bump_card b c :: cs from by simp [update_card_stats, h]]
        cases i with
        | zero =>
          cases b
          · exact ⟨rfl, Or.inr (Or.inr ⟨rfl, rfl⟩)⟩
          · exact ⟨rfl, Or.inr (Or.inl ⟨rfl, rfl⟩)⟩
        | succ i => exact counter_step_refl _
      · rw [show update_card_stats cid b (c :: cs) =
            c :: update_card_stats cid b cs from by simp [update_card_stats, h]]
        cases i with
        | zero => exact counter_step_refl _
        | succ i => exact ih i

/-- Claim C6: overall accuracy takes the explicit no-data branch when there
are zero attempts — the division is never evaluated with a zero denominator
— and with positive attempts it returns the percentage whose value satisfies
acc · (total_correct + total_incorrect) = total_correct · 100. -/
theorem overall_accuracy_no_div_by_zero (cards : List Card) :
    (total_correct cards + total_incorrect cards = 0 →
      overall_accuracy cards = none) ∧
    (0 < total_correct cards + total_incorrect cards →
      ∃ acc, overall_accuracy cards = some acc ∧
        acc * ((total_correct cards : ℚ) + (total_incorrect cards : ℚ)) =
          (total_correct cards : ℚ) * 100) := by
  constructor
  · intro h
    unfold overall_accuracy
    rw [if_pos h]
  · intro h
    have h0 : total_correct cards + total_incorrect cards ≠ 0 :=
      Nat.pos_iff_ne_zero.mp h
    refine ⟨((total_correct cards : ℚ) /
      ((total_correct cards + total_incorrect cards : Nat) : ℚ)) * 100, ?_, ?_⟩
    · unfold overall_accuracy
      rw [if_neg h0]
    · have hq : ((total_correct cards + total_incorrect cards : Nat) : ℚ) ≠ 0 := by
        exact_mod_cast h0
      push_cast at hq ⊢
      field_simp

/-- Closed instance: the all-zero demo catalog takes the no-data branch, and
the one-attempt catalog yields an accuracy satisfying the division
equation. -/
theorem overall_accuracy_witness :
    overall_accuracy c1_catalog = none ∧
    ∃ acc, overall_accuracy c6_catalog = some acc ∧
      acc * ((total_correct c6_catalog : ℚ) + (total_incorrect c6_catalog : ℚ)) =
        (total_correct c6_catalog : ℚ) * 100 :=
  ⟨(overall_accuracy_no_div_by_zero c1_catalog).1 (by decide),
   (overall_accuracy_no_div_by_zero c6_catalog).2 (by decide)⟩

/-! The repeated-start code bug: `initialize_session_state()` does not reset
an existing practice_session, despite the source comment "Reset session
state for a new session" (Lab6.py line 241). -/

/-- Claim C1 (evaluation at the failing input): after a completed two-card
General session, clicking Start again yields an Active session whose
position is 1 and whose tallies sum to 2 — not the claimed fresh zeros —
because `initialize_session_state()` is a no-op on the present key. -/
theorem start_second_session_not_reset :
    (run_session [true, true] c1_catalog c1_first_session).isSome = true ∧
    c1_second_session.active = true ∧
    c1_second_session.current_index = 1 ∧
    c1_second_session.correct_answers +
      c1_second_session.incorrect_answers = 2 := by
  decide

/-- Claim C2 (evaluation at the failing input): a reachable Active state
violates 0 ≤ position ≤ len(card_ids): after a completed three-card OOP
session, starting a one-card General session leaves current_index = 2 while
the new session's card list has length 1 (the next render's list indexing
would raise IndexError). -/
theorem session_invariant_violated :
    (run_session [true, true, true] c2_catalog c2_first_session).isSome = true ∧
    c2_second_session.active = true ∧
    c2_second_session.cards_in_session.length = 1 ∧
    c2_second_session.shuffled_indices.length = 1 ∧
    c2_second_session.current_index = 2 ∧
    ¬ c2_second_session.current_index ≤
        c2_second_session.cards_in_session.length := by
  decide

/-! The advance step and full-session completion. -/

lemma tally_cards (b : Bool) (s : PracticeSession) :
    (tally_session b s).cards_in_session = s.cards_in_session := by
  cases b <;> rfl

lemma tally_shuffled (b : Bool) (s : PracticeSession) :
    (tally_session b s).shuffled_indices = s.shuffled_indices := by
  cases b <;> rfl

lemma tally_index (b : Bool) (s : PracticeSession) :
    (tally_session b s).current_index = s.current_index := by
  cases b <;> rfl

lemma tally_active (b : Bool) (s : PracticeSession) :
    (tally_session b s).active = s.active := by
  cases b <;> rfl

lemma tally_sum (b : Bool) (s : PracticeSession) :
    (tally_session b s).correct_answers + (tally_session b s).incorrect_answers =
      s.correct_answers + s.incorrect_answers + 1 := by
  cases b <;> simp [tally_session] <;> omega

lemma step_correct (s1 : PracticeSession) :
    (step_session s1).correct_answers = s1.correct_answers := by
  unfold step_session
  split <;> rfl

lemma step_incorrect (s1 : PracticeSession) :
    (step_session s1).incorrect_answers = s1.incorrect_answers := by
  unfold step_session
  split <;> rfl

lemma step_cards (s1 : PracticeSession) :
    (step_session s1).cards_in_session = s1.cards_in_session := by
  unfold step_session
  split <;> rfl

lemma step_shuffled (s1 : PracticeSession) :
    (step_session s1).shuffled_indices = s1.shuffled_indices := by
  unfold step_session
  split <;> rfl

lemma step_session_last (s1 : PracticeSession)
    (h : ¬ s1.current_index + 1 < s1.shuffled_indices.length) :
    step_session s1 = { s1 with active := false } := by
  simp [step_session, h]

lemma step_session_advance (s1 : PracticeSession)
    (h : s1.current_index + 1 < s1.shuffled_indices.length) :
    step_session s1 =
      { s1 with
          current_index := s1.current_index + 1
          answer_submitted := false
          user_answer := []
          last_answer_correct := none } := by
  simp [step_session, h]

lemma handle_next_card_eq (b : Bool) (cards : List Card) (s : PracticeSession)
    (idx : Nat) (card : Card)
    (h1 : s.shuffled_indices[s.current_index]? = some idx)
    (h2 : s.cards_in_session[idx]? = some card) :
    handle_next_card b cards s =
      some (update_card_stats card.id b cards,
        step_session (tally_session b s)) := by
  simp [handle_next_card, h1, h2]

lemma bump_card_id (b : Bool) (c : Card) : (bump_card b c).id = c.id := by
  cases b <;> rfl

lemma find_update_card_stats (cid : Nat) (b : Bool) :
    ∀ cards : List Card,
    (update_card_stats cid b cards).find? (fun c => c.id == cid) =
      (cards.find? (fun c => c.id == cid)).map (bump_card b) := by
  intro cards
  induction cards with
  | nil => rfl
  | cons c cs ih =>
    by_cases h : c.id = cid
    · rw [show update_card_stats cid b (c :: cs) = bump_card b c :: cs from by
        simp [update_card_stats, h]]
      rw [List.find?_cons_of_pos _ (by simp [bump_card_id, h]),
        List.find?_cons_of_pos _ (by simp [h])]
      rfl
    · rw [show update_card_stats cid b (c :: cs) =
          c :: update_card_stats cid b cs from by simp [update_card_stats, h]]
      rw [List.find?_cons_of_neg _ (by simp [h]),
        List.find?_cons_of_neg _ (by simp [h]), ih]

lemma run_session_completes :
    ∀ (js : List Bool) (cards : List Card) (s : PracticeSession),
    (∀ i ∈ s.shuffled_indices, i < s.cards_in_session.length) →
    s.current_index + js.length = s.shuffled_indices.length →
    js ≠ [] →
    ∃ p : List Card × PracticeSession,
      run_session js cards s = some p ∧
      p.2.correct_answers + p.2.incorrect_answers =
        s.correct_answers + s.incorrect_answers + js.length ∧
      p.2.active = false := by
  intro js
  induction js with
  | nil =>
    intro cards s _ _ hne
    cases hne rfl
  | cons b bs ih =>
    intro cards s hmem hlen _
    have hidx : s.current_index < s.shuffled_indices.length := by
      simp only [List.length_cons] at hlen
      omega
    obtain ⟨idx, hget1⟩ : ∃ idx, s.shuffled_indices[s.current_index]? = some idx := by
      rw [List.getElem?_eq_getElem hidx]
      exact ⟨_, rfl⟩
    have hlt2 : idx < s.cards_in_session.length :=
      hmem idx (List.getElem?_mem hget1)
    obtain ⟨card, hget2⟩ : ∃ card, s.cards_in_session[idx]? = some card := by
      rw [List.getElem?_eq_getElem hlt2]
      exact ⟨_, rfl⟩
    simp only [run_session]
    rw [handle_next_card_eq b cards s idx card hget1 hget2]
    cases bs with
    | nil =>
      have hnot : ¬ (tally_session b s).current_index + 1 <
          (tally_session b s).shuffled_indices.length := by
        rw [tally_index, tally_shuffled]
        simp only [List.length_cons, List.length_nil] at hlen
        omega
      refine ⟨_, rfl, ?_, ?_⟩
      · rw [step_session_last _ hnot]
        cases b <;>
          simp [tally_session, List.length_cons, List.length_nil] <;> omega
      · rw [step_session_last _ hnot]
    | cons b2 bs2 =>
      have hlt3 : (tally_session b s).current_index + 1 <
          (tally_session b s).shuffled_indices.length := by
        rw [tally_index, tally_shuffled]
        simp only [List.length_cons] at hlen
        omega
      rw [step_session_advance _ hlt3]
      obtain ⟨p, hp, hsum, hact⟩ :=
        ih (update_card_stats card.id b cards)
          { tally_session b s with
              current_index := (tally_session b s).current_index + 1
              answer_submitted := false
              user_answer := []
              last_answer_correct := none }
          (by
            simp only [tally_shuffled, tally_cards]
            exact hmem)
          (by
            simp only [tally_index, tally_shuffled, List.length_cons] at hlen ⊢
            omega)
          (by simp)
      refine ⟨p, hp, ?_, hact⟩
      rw [hsum]
      have := tally_sum b s
      simp only [List.length_cons]
      cases b <;> simp [tally_session] at this ⊢ <;> omega

/-- Claim C4: with an Active session and a pending judgment, advance
increments exactly the tally matching the judgment and writes the increment
through to the first catalog card with the current card's id; if
position + 1 equals the card count the session transitions to Idle, and
otherwise position is incremented and the pending judgment is cleared.
Consequently a full freshly-started session over N cards ends Idle with
the tallies summing to N. -/
theorem advance_writes_through_and_completes :
    (∀ (b : Bool) (cards : List Card) (s : PracticeSession) (idx : Nat)
        (card c0 : Card),
      s.active = true → s.answer_submitted = true →
      s.shuffled_indices[s.current_index]? = some idx →
      s.cards_in_session[idx]? = some card →
      ∃ cards1 s2, handle_next_card b cards s = some (cards1, s2) ∧
        cards1 = update_card_stats card.id b cards ∧
        (cards.find? (fun c => c.id == card.id) = some c0 →
          cards1.find? (fun c => c.id == card.id) = some (bump_card b c0)) ∧
        (b = true → s2.correct_answers = s.correct_answers + 1 ∧
          s2.incorrect_answers = s.incorrect_answers) ∧
        (b = false → s2.incorrect_answers = s.incorrect_answers + 1 ∧
          s2.correct_answers = s.correct_answers) ∧
        (s.current_index + 1 = s.shuffled_indices.length → s2.active = false) ∧
        (s.current_index + 1 < s.shuffled_indices.length →
          s2.active = true ∧ s2.current_index = s.current_index + 1 ∧
          s2.answer_submitted = false)) ∧
    (∀ (topic : String) (catalog : List Card) (shuffled : List Nat)
        (js : List Bool),
      shuffled.Perm (List.range (topic_filter topic catalog).length) →
      js.length = (topic_filter topic catalog).length →
      topic_filter topic catalog ≠ [] →
      ∃ p : List Card × PracticeSession,
        run_session js catalog
          (start_clicked topic catalog shuffled freshSession).session =
          some p ∧
        p.2.correct_answers + p.2.incorrect_answers = js.length ∧
        p.2.active = false) := by
  constructor
  · intro b cards s idx card c0 hact _ h1 h2
    refine ⟨_, _, handle_next_card_eq b cards s idx card h1 h2, rfl,
      ?_, ?_, ?_, ?_, ?_⟩
    · intro hfind
      rw [find_update_card_stats card.id b cards, hfind]
      rfl
    · rintro rfl
      rw [step_correct, step_incorrect]
      simp [tally_session]
    · rintro rfl
      rw [step_correct, step_incorrect]
      simp [tally_session]
    · intro heq
      have hnot : ¬ (tally_session b s).current_index + 1 <
          (tally_session b s).shuffled_indices.length := by
        rw [tally_index, tally_shuffled]
        omega
      rw [step_session_last _ hnot]
    · intro hlt
      have hlt' : (tally_session b s).current_index + 1 <
          (tally_session b s).shuffled_indices.length := by
        rw [tally_index, tally_shuffled]
        exact hlt
      rw [step_session_advance _ hlt']
      refine ⟨?_, ?_, rfl⟩
      · show (tally_session b s).active = true
        rw [tally_active]
        exact hact
      · show (tally_session b s).current_index + 1 = s.current_index + 1
        rw [tally_index]
  · intro topic catalog shuffled js hperm hlen hne
    have hstart : (start_clicked topic catalog shuffled freshSession).session =
        { freshSession with
            active := true
            cards_in_session := topic_filter topic catalog
            shuffled_indices := shuffled } := by
      unfold start_clicked
      rw [if_neg (by simp [List.isEmpty_iff, hne])]
      rfl
    rw [hstart]
    obtain ⟨p, hp, hsum, hact⟩ :=
      run_session_completes js catalog
        { freshSession with
            active := true
            cards_in_session := topic_filter topic catalog
            shuffled_indices := shuffled }
        (by
          intro i hi
          have hi1 : i ∈ shuffled := hi
          have hi2 : i ∈ List.range (topic_filter topic catalog).length :=
            hperm.mem_iff.mp hi1
          show i < (topic_filter topic catalog).length
          exact List.mem_range.mp hi2)
        (by
          have hle := hperm.length_eq
          simp only [List.length_range] at hle
          show freshSession.current_index + js.length = shuffled.length
          simp [freshSession]
          omega)
        (by
          intro hjs
          apply hne
          rw [hjs] at hlen
          exact List.length_eq_zero.mp hlen.symm)
    refine ⟨p, hp, ?_, hact⟩
    rw [hsum]
    show freshSession.correct_answers + freshSession.incorrect_answers +
      js.length = js.length
    simp [freshSession]

/-- Closed instance of the advance theorem: one advance on a concrete
pending session succeeds, and a full two-card run from a fresh start
succeeds. -/
theorem advance_witness :
    (handle_next_card true c1_catalog c4_session).isSome = true ∧
    (run_session [true, true] c1_catalog
      (start_clicked ("General") c1_catalog [0, 1] freshSession).session).isSome =
      true := by
  constructor
  · obtain ⟨cards1, s2, heq, _⟩ :=
      advance_writes_through_and_completes.1 true c1_catalog c4_session 0
        (demoCard 1 ("General") 0) (demoCard 1 ("General") 0) rfl rfl
        (by decide) (by decide)
    rw [heq]
    rfl
  · obtain ⟨p, hp, _⟩ :=
      advance_writes_through_and_completes.2 ("General") c1_catalog [0, 1]
        [true, true] (by decide) (by decide) (by decide)
    rw [hp]
    rfl

/-! The Most Challenging Cards listing. -/

lemma mem_insAsc (c x : Card) :
    ∀ l : List Card, x ∈ insAsc c l ↔ x = c ∨ x ∈ l := by
  intro l
  induction l with
  | nil => simp [insAsc]
  | cons y ys ih =>
    by_cases h : y.incorrect_count < c.incorrect_count
    · simp only [insAsc, if_pos h, List.mem_cons, ih]
      tauto
    · simp only [insAsc, if_neg h, List.mem_cons]

lemma pairwise_insAsc (c : Card) :
    ∀ l : List Card,
    l.Pairwise (fun a b => a.incorrect_count ≤ b.incorrect_count) →
    (insAsc c l).Pairwise
      (fun a b => a.incorrect_count ≤ b.incorrect_count) := by
  intro l
  induction l with
  | nil => intro _; simp [insAsc]
  | cons y ys ih =>
    intro hp
    rcases List.pairwise_cons.mp hp with ⟨hy, hys⟩
    by_cases h : y.incorrect_count < c.incorrect_count
    · rw [show insAsc c (y :: ys) = y :: insAsc c ys from by
        simp [insAsc, h]]
      apply List.pairwise_cons.mpr
      refine ⟨?_, ih hys⟩
      intro z hz
      rcases (mem_insAsc c z ys).mp hz with rfl | hz'
      · exact Nat.le_of_lt h
      · exact hy z hz'
    · rw [show insAsc c (y :: ys) = c :: y :: ys from by
        simp [insAsc, h]]
      apply List.pairwise_cons.mpr
      constructor
      · intro z hz
        rcases List.mem_cons.mp hz with rfl | hz'
        · omega
        · exact Nat.le_trans (by omega) (hy z hz')
      · exact hp

lemma sortAsc_pairwise :
    ∀ l : List Card,
    (sortAsc l).Pairwise
      (fun a b => a.incorrect_count ≤ b.incorrect_count) := by
  intro l
  induction l with
  | nil => simp [sortAsc]
  | cons c cs ih => exact pairwise_insAsc c _ ih

lemma pandas_sort_desc_sorted (l : List Card) :
    (pandas_sort_desc l).Pairwise
      (fun a b => b.incorrect_count ≤ a.incorrect_count) := by
  unfold pandas_sort_desc
  rw [List.pairwise_reverse]
  exact sortAsc_pairwise l

lemma filter_take_of_sorted_desc :
    ∀ (l : List Card) (k : Nat),
    l.Pairwise (fun a b => b.incorrect_count ≤ a.incorrect_count) →
    (l.take k).filter (fun c => 0 < c.incorrect_count) =
      (l.filter (fun c => 0 < c.incorrect_count)).take k := by
  intro l
  induction l with
  | nil => intro k _; simp
  | cons c cs ih =>
    intro k hp
    rcases List.pairwise_cons.mp hp with ⟨hc, hcs⟩
    cases k with
    | zero => simp
    | succ k =>
      by_cases h : 0 < c.incorrect_count
      · simp [List.take_succ_cons, List.filter_cons, h, ih k hcs]
      · have hall : ∀ y ∈ cs, ¬ 0 < y.incorrect_count := by
          intro y hy
          have := hc y hy
          omega
        have hl : (cs.take k).filter (fun c => 0 < c.incorrect_count) = [] := by
          rw [List.filter_eq_nil_iff]
          intro y hy
          simpa using hall y (List.take_subset _ _ hy)
        have hr : cs.filter (fun c => 0 < c.incorrect_count) = [] := by
          rw [List.filter_eq_nil_iff]
          intro y hy
          simpa using hall y hy
        simp [List.take_succ_cons, List.filter_cons, h, hl, hr]

/-- Claim C5 (counterexample to the stated tie-break): on two cards with
equal positive incorrect_count, the page's listing reverses their original
order — pandas `sort_values(ascending=False)` reverses an ascending-sorted
indexer — so it differs from the stable descending listing the claim
describes. -/
theorem hardest_cards_counterexample :
    hardest_cards [demoCard 10 ("General") 1, demoCard 11 ("General") 1] ≠
      spec_hardest [demoCard 10 ("General") 1, demoCard 11 ("General") 1] := by
  decide

/-- Claim C5 (amended): the hardest-cards listing equals sorting by
incorrect_count descending with equal counts appearing in reversed original
order, excluding every card with incorrect_count = 0, and taking the top 5;
it never contains a card with incorrect_count = 0 (and, being a pure
function of the card list, its order is the same on repeated calls). -/
theorem hardest_cards_amended (cards : List Card) :
    hardest_cards cards =
      ((pandas_sort_desc cards).filter
        (fun c => 0 < c.incorrect_count)).take 5 ∧
    (∀ c ∈ hardest_cards cards, 0 < c.incorrect_count) := by
  constructor
  · exact filter_take_of_sorted_desc _ 5 (pandas_sort_desc_sorted cards)
  · intro c hc
    have hmem := (List.mem_filter.mp hc).2
    simpa using hmem

/-- Closed instance: the second demo card is in the listing and its
incorrect count is positive. -/
theorem hardest_cards_amended_witness :
    0 < (demoCard 11 ("General") 1).incorrect_count :=
  (hardest_cards_amended
    [demoCard 10 ("General") 1, demoCard 11 ("General") 1]).2
    (demoCard 11 ("General") 1) (by decide)
